import Mathlib

/-!
Verification of the DeployDoctor code-healing orchestrator.

Text is modelled as `List Char`; Python `str` operations used by the source
(`in`, `replace(_, _, 1)`, `split`, `strip`, `lower`, `join`) are embedded as
executable functions on character lists.
-/

set_option maxRecDepth 10000

/-- Python's notion of ASCII whitespace used by `str.strip()` / `str.split()`. -/
def pyWsp (c : Char) : Bool :=
  c = ' ' || c = '\t' || c = '\n' || c = '\r' || c = '\x0b' || c = '\x0c'

/-- Boolean prefix test on character lists (Python `startswith`). -/
def isPre : List Char → List Char → Bool
  | [], _ => true
  | _ :: _, [] => false
  | a :: as, b :: bs => a = b && isPre as bs

/-- Boolean substring test: Python's `needle in haystack`. -/
def containsSub (n : List Char) : List Char → Bool
  | [] => isPre n []
  | c :: t => isPre n (c :: t) || containsSub n t

/-- Python `haystack.replace(needle, repl, 1)`: replace the first occurrence only. -/
def replaceFirst (n r : List Char) : List Char → List Char
  | [] => if isPre n [] then r ++ List.drop n.length [] else []
  | c :: t =>
    if isPre n (c :: t) then r ++ List.drop n.length (c :: t)
    else c :: replaceFirst n r t

/-- Python `s.strip()` (ASCII whitespace). -/
def pyStrip (l : List Char) : List Char :=
  ((l.dropWhile pyWsp).reverse.dropWhile pyWsp).reverse

/-- Split on a separator character, keeping empty chunks: Python `s.split(sep)`. -/
def splitOnChar (sep : Char) : List Char → List (List Char)
  | [] => [[]]
  | c :: t =>
    if c = sep then [] :: splitOnChar sep t
    else
      match splitOnChar sep t with
      | [] => [[c]]
      | l :: ls => (c :: l) :: ls

/-- Join chunks with a separator character: Python `sep.join(chunks)`. -/
def joinWithChar (sep : Char) : List (List Char) → List Char
  | [] => []
  | [l] => l
  | l :: l₂ :: ls => l ++ sep :: joinWithChar sep (l₂ :: ls)

/-- Split on ASCII-whitespace runs, keeping empty chunks (helper for `pySplitWs`). -/
def splitWsAux : List Char → List (List Char)
  | [] => [[]]
  | c :: t =>
    if pyWsp c then [] :: splitWsAux t
    else
      match splitWsAux t with
      | [] => [[c]]
      | l :: ls => (c :: l) :: ls

/-- Python `s.split()` with no argument: whitespace runs as separators, no empties. -/
def pySplitWs (l : List Char) : List (List Char) :=
  (splitWsAux l).filter (fun x => x ≠ [])

/-- Python `s.lower()` on ASCII text. -/
def pyLower (l : List Char) : List Char := l.map Char.toLower

/-- Python `s.upper()` on ASCII text. -/
def pyUpper (l : List Char) : List Char := l.map Char.toUpper

namespace Backend

/-- The bug-category enum of `backend/services/error_parser.py` (`BugType`). -/
inductive BugType where
  | SYNTAX | INDENTATION | IMPORT | LOGIC | LINTING | TYPE_ERROR | UNKNOWN
deriving DecidableEq

/-- The `.value` string of each `BugType` member, as in the source enum. -/
def bugTypeName : BugType → String
  | .SYNTAX => "SYNTAX"
  | .INDENTATION => "INDENTATION"
  | .IMPORT => "IMPORT"
  | .LOGIC => "LOGIC"
  | .LINTING => "LINTING"
  | .TYPE_ERROR => "TYPE_ERROR"
  | .UNKNOWN => "UNKNOWN"

/-- `ErrorParser.ERROR_CLASSIFICATION`: the ordered classification table
(Python dicts iterate in insertion order). -/
def ERROR_CLASSIFICATION : List (String × BugType) :=
  [("SyntaxError", .SYNTAX),
   ("invalid syntax", .SYNTAX),
   ("IndentationError", .INDENTATION),
   ("unexpected indent", .INDENTATION),
   ("expected an indented block", .INDENTATION),
   ("unindent does not match", .INDENTATION),
   ("ImportError", .IMPORT),
   ("ModuleNotFoundError", .IMPORT),
   ("No module named", .IMPORT),
   ("cannot import name", .IMPORT),
   ("NameError", .LOGIC),
   ("TypeError", .LOGIC),
   ("ValueError", .LOGIC),
   ("AttributeError", .LOGIC),
   ("KeyError", .LOGIC),
   ("IndexError", .LOGIC),
   ("AssertionError", .LOGIC),
   ("ZeroDivisionError", .LOGIC),
   ("flake8", .LINTING),
   ("pylint", .LINTING),
   ("E501", .LINTING),
   ("E302", .LINTING),
   ("W503", .LINTING),
   ("mypy", .TYPE_ERROR),
   ("Incompatible types", .TYPE_ERROR),
   ("has no attribute", .TYPE_ERROR),
   ("Argument", .TYPE_ERROR)]

/-- Whether one table row matches the error text:
`pattern.lower() in error_text.lower()`. -/
def rowMatches (row : String × BugType) (t : List Char) : Bool :=
  containsSub (pyLower row.1.data) (pyLower t)

/-- First-match scan over a classification table. -/
def classifyFrom (table : List (String × BugType)) (t : List Char) : BugType :=
  match table with
  | [] => .UNKNOWN
  | row :: rest => if rowMatches row t then row.2 else classifyFrom rest t

/-- `ErrorParser.classify_error`: first matching table row wins, else `UNKNOWN`. -/
def classifyError (t : List Char) : BugType :=
  classifyFrom ERROR_CLASSIFICATION t

end Backend

namespace Updated

/-- The bug-type enum of `backend-updated/analysis_schemas.py` (`BugType`):
the eight spec values plus `DOCKER_ERROR`. -/
inductive BugType where
  | LINTING | SYNTAX | LOGIC | TYPE_ERROR | IMPORT | INDENTATION
  | TEST_FAILURE | RUNTIME | DOCKER_ERROR
deriving DecidableEq

/-- The `.value` string of each member of the backend-updated enum. -/
def bugTypeName : BugType → String
  | .LINTING => "LINTING"
  | .SYNTAX => "SYNTAX"
  | .LOGIC => "LOGIC"
  | .TYPE_ERROR => "TYPE_ERROR"
  | .IMPORT => "IMPORT"
  | .INDENTATION => "INDENTATION"
  | .TEST_FAILURE => "TEST_FAILURE"
  | .RUNTIME => "RUNTIME"
  | .DOCKER_ERROR => "DOCKER_ERROR"

/-- `CodeFixerAgent._map_error_to_bug_type`'s `error_mapping` dict
(exact-key lookup). -/
def ERROR_MAPPING : List (String × BugType) :=
  [("SyntaxError", .SYNTAX),
   ("IndentationError", .INDENTATION),
   ("TabError", .INDENTATION),
   ("NameError", .LOGIC),
   ("TypeError", .TYPE_ERROR),
   ("ImportError", .IMPORT),
   ("ModuleNotFoundError", .IMPORT),
   ("AttributeError", .LOGIC),
   ("ValueError", .LOGIC),
   ("KeyError", .LOGIC),
   ("IndexError", .LOGIC),
   ("TEST_FAILURE", .TEST_FAILURE),
   ("AssertionError", .TEST_FAILURE),
   ("LINTING", .LINTING),
   ("TYPE_ERROR", .TYPE_ERROR),
   ("UNDEFINED_NAME", .LOGIC),
   ("UNUSED_VARIABLE", .LINTING),
   ("UNUSED_IMPORT", .IMPORT),
   ("JSX_ERROR", .SYNTAX),
   ("REACT_WARNING", .LINTING),
   ("CONSOLE_STATEMENT", .LINTING),
   ("DEBUGGER", .LINTING),
   ("EMPTY_CATCH", .LOGIC),
   ("ASSIGNMENT_IN_CONDITION", .LOGIC),
   ("LOOSE_EQUALITY", .LINTING),
   ("LOOSE_INEQUALITY", .LINTING),
   ("JAVA_ERROR", .SYNTAX),
   ("JAVA_WARNING", .LINTING),
   ("MAVEN_ERROR", .RUNTIME),
   ("GRADLE_ERROR", .RUNTIME)]

/-- `CodeFixerAgent._map_error_to_bug_type`:
`error_mapping.get(error_type, BugType.LINTING)`. -/
def mapErrorToBugType (s : String) : BugType :=
  (ERROR_MAPPING.lookup s).getD .LINTING

end Updated

/-- The closed eight-element bug-type enum of spec section 3, by member name.
This definition follows the spec's words, for comparison with the two source
enums above. -/
def specEightNames : List String :=
  ["SYNTAX", "INDENTATION", "IMPORT", "TYPE_ERROR", "LOGIC",
   "TEST_FAILURE", "RUNTIME", "LINTING"]

namespace Orchestrator

/-- `OrchestratorAgent.BASE_SCORE` in `backend/agents/orchestrator_agent.py`. -/
def BASE_SCORE : Int := 100

/-- `OrchestratorAgent.SPEED_BONUS_THRESHOLD` (seconds). -/
def SPEED_BONUS_THRESHOLD : ℚ := 300

/-- `OrchestratorAgent.SPEED_BONUS`. -/
def SPEED_BONUS : Int := 10

/-- `OrchestratorAgent.COMMIT_PENALTY_THRESHOLD`. -/
def COMMIT_PENALTY_THRESHOLD : Int := 20

/-- `OrchestratorAgent.COMMIT_PENALTY`. -/
def COMMIT_PENALTY : Int := 2

/-- `OrchestratorAgent.calculate_score`, transcribed from the source:
wall time is a real-valued duration (modelled as `ℚ`), counts are Python ints. -/
def calculate_score (success : Bool) (duration_seconds : ℚ)
    (total_commits total_fixes : Int) : Int :=
  if success || total_fixes > 0 then
    let score := if success then BASE_SCORE else min BASE_SCORE (40 + total_fixes * 15)
    let score := if success && duration_seconds < SPEED_BONUS_THRESHOLD
                 then score + SPEED_BONUS else score
    let score := if total_commits > COMMIT_PENALTY_THRESHOLD
                 then score - (total_commits - COMMIT_PENALTY_THRESHOLD) * COMMIT_PENALTY
                 else score
    max 0 score
  else 0

end Orchestrator

namespace Fixer

/-- The fields of `CodeFix` (`backend-updated/analysis_schemas.py`) that patch
application reads; `None` optional strings are modelled as `[]`. -/
structure CodeFix where
  file_path : List Char
  line_number : Nat
  original_code : List Char
  fixed_code : List Char
deriving DecidableEq

/-- Outcome of applying one fix in `CodeFixerAgent._apply_all_fixes`:
`FIXED`, or `FAILED` with the description suffix the code appends. -/
inductive ApplyResult where
  | fixed
  | failedMissing
  | failedNotFound
  | failedFileNotFound
deriving DecidableEq

/-- Python `lst.pop(i)` (caller guarantees `i` in range; out of range is a no-op
here, matching the guarded call sites). -/
def pyPop (i : Nat) : List α → List α
  | [] => []
  | x :: xs =>
    match i with
    | 0 => xs
    | j + 1 => x :: pyPop j xs

/-- Python `lst.insert(i, a)` (clamps to append when `i` exceeds the length). -/
def pyInsert (i : Nat) (a : α) : List α → List α
  | [] => [a]
  | x :: xs =>
    match i with
    | 0 => a :: x :: xs
    | j + 1 => x :: pyInsert j a xs

/-- The removal loop of `_try_line_based_fix`:
`for _ in range(num): if line_idx < len(lines): lines.pop(line_idx)`. -/
def popN (num idx : Nat) (l : List α) : List α :=
  match num with
  | 0 => l
  | k + 1 => popN k idx (if idx < l.length then pyPop idx l else l)

/-- The insertion loop of `_try_line_based_fix`:
`for i, new_line in enumerate(fixed_lines): lines.insert(line_idx + i, new_line)`. -/
def insertSeq (ns : List α) (pos : Nat) (l : List α) : List α :=
  match ns with
  | [] => l
  | n :: rest => insertSeq rest (pos + 1) (pyInsert pos n l)

/-- The fuzzy-anchor gate of `_try_line_based_fix`: key parts are the
whitespace-separated tokens of length > 2 of the trimmed first original line;
the gate fails when fewer than 50% of them occur in the trimmed anchor line. -/
def keyParts (firstOrigStripped : List Char) : List (List Char) :=
  (pySplitWs firstOrigStripped).filter (fun p => p.length > 2)

/-- `CodeFixerAgent._try_line_based_fix` (`backend-updated`): `none` models
`return False` with `lines` untouched, `some` the mutated `lines`. -/
def tryLineBasedFix (lines : List (List Char)) (fx : CodeFix) :
    Option (List (List Char)) :=
  if fx.line_number < 1 then none
  else
    let lineIdx := fx.line_number - 1
    if lineIdx ≥ lines.length then none
    else
      let originalLines :=
        if fx.original_code = [] then [] else splitOnChar '\n' fx.original_code
      if originalLines = [] then none
      else
        let num := originalLines.length
        if lineIdx + num > lines.length then none
        else
          let firstOrigStripped := pyStrip (originalLines.headD [])
          let actualFirstStripped := pyStrip (lines.getD lineIdx [])
          let gate :=
            if firstOrigStripped ≠ [] ∧ firstOrigStripped ≠ actualFirstStripped then
              let parts := keyParts firstOrigStripped
              let matched := (parts.filter (fun p => containsSub p actualFirstStripped)).length
              ¬ (2 * matched < parts.length)
            else True
          if gate then
            if fx.fixed_code = [] ∨ pyStrip fx.fixed_code = [] then
              some (popN num lineIdx lines)
            else
              some (insertSeq (splitOnChar '\n' fx.fixed_code) lineIdx
                      (popN num lineIdx lines))
          else none

/-- The per-fix body of `CodeFixerAgent._apply_all_fixes` applied to one fix:
exact first-occurrence replacement, else line-anchored fallback, else `FAILED`
leaving the content unchanged. Returns the file content to be written back and
the fix status. -/
def applyOneFix (content : List Char) (fx : CodeFix) : List Char × ApplyResult :=
  let lines := splitOnChar '\n' content
  if fx.original_code = [] then (joinWithChar '\n' lines, .failedMissing)
  else
    let content₁ := joinWithChar '\n' lines
    if containsSub fx.original_code content₁ then
      (replaceFirst fx.original_code fx.fixed_code content₁, .fixed)
    else
      match tryLineBasedFix lines fx with
      | some newLines => (joinWithChar '\n' newLines, .fixed)
      | none => (joinWithChar '\n' lines, .failedNotFound)

end Fixer

namespace Fixer

/-- `os.path.join(a, b)`: an absolute `b` discards `a`; otherwise a single slash
joins the two parts. -/
def pyPathJoin (a b : List Char) : List Char :=
  if b.headD ' ' = '/' then b
  else if a = [] then b
  else if a.reverse.headD ' ' = '/' then a ++ b
  else a ++ '/' :: b

/-- OS-level resolution of `.` and `..` segments of an absolute path, as the
kernel performs when `open`/`os.path.exists` receive the joined path. -/
def resolveSegs (segs : List (List Char)) : List (List Char) :=
  segs.foldl
    (fun acc s =>
      if s = [] ∨ s = ['.'] then acc
      else if s = ['.', '.'] then acc.dropLast
      else acc ++ [s])
    []

/-- Resolved form of an absolute path: its `/`-separated segments after
`..` and `.` elimination. -/
def resolvePath (p : List Char) : List (List Char) :=
  resolveSegs (splitOnChar '/' p)

/-- A path is under the workspace root when the root's resolved segments are an
initial segment of the path's. -/
def isUnderRoot (root p : List Char) : Bool :=
  isPre (joinWithChar '/' (resolvePath root) ++ ['/'])
        (joinWithChar '/' (resolvePath p) ++ ['/'])

/-- The on-disk files visible to fix application: an association from resolved
path segments to file content. -/
def FileSys := List (List (List Char) × List Char)

/-- Read a file (`open(full_path)` / `os.path.exists`): the OS resolves the path. -/
def fsRead (fs : FileSys) (p : List Char) : Option (List Char) :=
  (List.find? (fun e => e.1 = resolvePath p) fs).map (fun e => e.2)

/-- Write a file at the resolved path. -/
def fsWrite (fs : FileSys) (p : List Char) (c : List Char) : FileSys :=
  (resolvePath p, c) :: List.filter (fun e => ¬ e.1 = resolvePath p) fs

/-- The per-file body of `_apply_all_fixes` for a single fix: join the repo path
with the fix's `file_path` unchecked, fail only when the file does not exist,
otherwise apply and write back when the content changed. -/
def applyFixToRepo (fs : FileSys) (repoPath : List Char) (fx : CodeFix) :
    FileSys × ApplyResult :=
  let fullPath := pyPathJoin repoPath fx.file_path
  match fsRead fs fullPath with
  | none => (fs, .failedFileNotFound)
  | some content =>
    let r := applyOneFix content fx
    (if r.1 ≠ content then fsWrite fs fullPath r.1 else fs, r.2)

end Fixer

namespace Branch

/-- Character class kept by `re.sub(r'[^A-Z0-9_]', '', name)`. -/
def branchChar (c : Char) : Bool :=
  ('A' ≤ c && c ≤ 'Z') || ('0' ≤ c && c ≤ '9') || c = '_'

/-- `re.sub(r'_+', '_', name)`: collapse runs of underscores (helper carrying
whether the previous kept character was an underscore). -/
def collapseAux (prevUnderscore : Bool) : List Char → List Char
  | [] => []
  | c :: t =>
    if c = '_' then
      if prevUnderscore then collapseAux true t
      else '_' :: collapseAux true t
    else c :: collapseAux false t

/-- `re.sub(r'_+', '_', name)`. -/
def collapseUnderscores (l : List Char) : List Char := collapseAux false l

/-- Python `name.strip('_')`. -/
def stripUnderscores (l : List Char) : List Char :=
  ((l.dropWhile (fun c => c = '_')).reverse.dropWhile (fun c => c = '_')).reverse

/-- `generate_branch_name` in `backend/utils/branch.py`, transcribed step by
step: concatenate, uppercase, spaces to underscores, drop characters outside
`[A-Z0-9_]`, collapse underscore runs, strip underscores, append `_AI_Fix`. -/
def generate_branch_name (team_name leader_name : List Char) : List Char :=
  let name := team_name ++ '_' :: leader_name
  let name := pyUpper name
  let name := name.map (fun c => if c = ' ' then '_' else c)
  let name := name.filter branchChar
  let name := collapseUnderscores name
  let name := stripUnderscores name
  name ++ ("_AI_Fix".data)

end Branch

namespace Loop

/-- `OrchestratorAgent.MAX_ITERATIONS` (`backend-updated`). -/
def MAX_ITERATIONS : Nat := 5

/-- `max_final_iterations` of the test-only remediation tail. -/
def MAX_FINAL_ITERATIONS : Nat := 3

/-- `iteration = 0; while iteration < maxI: iteration += 1; ... (break?)`.
`breakAt k` abstracts whether pass `k`'s body reaches any `break`
(all break decisions depend on the sandbox, fixer and test oracles). -/
def loopCount (breakAt : Nat → Bool) (maxI : Nat) (i : Nat) : Nat :=
  if i < maxI then
    if breakAt (i + 1) then i + 1 else loopCount breakAt maxI (i + 1)
  else i
termination_by maxI - i

/-- Number of main fix/verify iterations recorded in `summary.total_iterations`. -/
def mainLoopIterations (breakAt : Nat → Bool) : Nat :=
  loopCount breakAt MAX_ITERATIONS 0

/-- `while failed > 0 and final_test_iterations < 3: final_test_iterations += 1; ...`:
`proceed k` abstracts `test_result.get('failed', 0) > 0` before pass `k`,
`breakAt k` the two in-body `break`s. -/
def tailLoopCount (proceed breakAt : Nat → Bool) (i : Nat) : Nat :=
  if i < MAX_FINAL_ITERATIONS ∧ proceed (i + 1) then
    if breakAt (i + 1) then i + 1 else tailLoopCount proceed breakAt (i + 1)
  else i
termination_by MAX_FINAL_ITERATIONS - i

/-- Number of test-only remediation tail iterations executed. -/
def tailIterations (proceed breakAt : Nat → Bool) : Nat :=
  tailLoopCount proceed breakAt 0

end Loop

namespace Sandbox

/-- The sentinel line `' ' * indent + 'pass  # [SYNTAX_CHECK_PLACEHOLDER]\n'`
substituted for a known error line, with `indent = len(line) - len(line.lstrip())`. -/
def sentinelOf (line : List Char) : List Char :=
  List.replicate (line.takeWhile pyWsp).length ' ' ++
    ("pass  # [SYNTAX_CHECK_PLACEHOLDER]\n".data)

/-- Replace every already-found error line (1-based numbering, as in
`enumerate(lines, 1)`) with its sentinel (helper carrying the next line number). -/
def replaceFoundFrom (found : List Nat) (i : Nat) : List (List Char) → List (List Char)
  | [] => []
  | l :: t =>
    (if found.contains i then sentinelOf l else l) :: replaceFoundFrom found (i + 1) t

/-- One modified source per round: all found error lines replaced by sentinels. -/
def replaceFound (found : List Nat) (lines : List (List Char)) : List (List Char) :=
  replaceFoundFrom found 1 lines

/-- The re-parse loop of `_find_all_syntax_errors`. `parse` abstracts
`ast.parse`: `none` when the lines parse, `some l` for a `SyntaxError` whose
`lineno` is `l` (`0` standing for a falsy/absent `lineno`). Returns the
accumulated error line numbers and the number of rounds executed. -/
def discoverRounds (parse : List (List Char) → Option Nat)
    (lines : List (List Char)) :
    Nat → List Nat → Nat → List Nat × Nat
  | 0, found, rounds => (found, rounds)
  | fuel + 1, found, rounds =>
    match parse (replaceFound found lines) with
    | none => (found, rounds + 1)
    | some l =>
      if l ≠ 0 ∧ l ∉ found then
        discoverRounds parse lines fuel (found ++ [l]) (rounds + 1)
      else (found, rounds + 1)

/-- `SandboxExecutorAgent._find_all_syntax_errors` (`backend-updated`),
abstracted over the Python parser: first parse the file as-is; then up to 10
rounds of sentinel substitution and re-parsing, accumulating distinct error
line numbers. -/
def findAllSyntaxErrors (parse : List (List Char) → Option Nat)
    (lines : List (List Char)) : List Nat × Nat :=
  match parse lines with
  | none => ([], 0)
  | some l => if l = 0 then ([], 0) else discoverRounds parse lines 10 [l] 0

end Sandbox

namespace Store

/-- File-system operations performed by the result store. -/
inductive FsOp where
  | openWrite : List Char → FsOp
  | writeDoc : List Char → List Char → FsOp
  | rename : List Char → List Char → FsOp
deriving DecidableEq

/-- `os.path.join(RESULTS_DIR, f"<analysis_id>.json")`. -/
def resultFilePath (resultsDir analysisId : List Char) : List Char :=
  resultsDir ++ '/' :: (analysisId ++ (".json".data))

/-- The I/O trace of `_save_result_to_disk` (`backend-updated/routes/analysis_router.py`):
`open(filepath, 'w')` on the final path followed by `json.dump`. -/
def saveResultToDiskTrace (resultsDir analysisId doc : List Char) : List FsOp :=
  [.openWrite (resultFilePath resultsDir analysisId),
   .writeDoc (resultFilePath resultsDir analysisId) doc]

/-- Atomic persistence as the spec words it: write the complete document to a
temporary file, then rename it into place. This definition follows the spec's
words, for comparison with `saveResultToDiskTrace`. -/
def specAtomicSaveTrace (tmp finalPath doc : List Char) : List FsOp :=
  [.openWrite tmp, .writeDoc tmp doc, .rename tmp finalPath]

/-- Whether an operation is a rename. -/
def FsOp.isRename : FsOp → Bool
  | .rename _ _ => true
  | _ => false

end Store

/-- `n` occurs in `h` at position `i` (Python substring occurrence). -/
def occursAt (n h : List Char) (i : Nat) : Bool :=
  isPre n (h.drop i)

namespace Fixer

/-- The acceptance condition of spec section 4.5 step 2, as the claim words it:
the anchor line's trimmed content equals the trimmed first line of
`original_code`, or at least 50% of that line's whitespace-separated tokens of
length at least 3 occur in the anchor line. Stated from the spec for
comparison with `tryLineBasedFix`. -/
def specAnchorCondition (fx : CodeFix) (lines : List (List Char)) : Prop :=
  let firstOrig := pyStrip ((splitOnChar '\n' fx.original_code).headD [])
  let anchor := pyStrip (lines.getD (fx.line_number - 1) [])
  firstOrig = anchor ∨
    2 * ((keyParts firstOrig).filter
          (fun p => containsSub p anchor)).length ≥ (keyParts firstOrig).length

end Fixer
theorem splitOnChar_ne_nil (sep : Char) (l : List Char) : splitOnChar sep l ≠ [] := by
  induction l with
  | nil => simp [splitOnChar]
  | cons c t ih =>
    simp only [splitOnChar]
    split
    · simp
    · match h : splitOnChar sep t with
      | [] => exact absurd h ih
      | l :: ls => simp

theorem joinWithChar_splitOnChar (sep : Char) (l : List Char) :
    joinWithChar sep (splitOnChar sep l) = l := by
  induction l with
  | nil => simp [splitOnChar, joinWithChar]
  | cons c t ih =>
    simp only [splitOnChar]
    split
    · rename_i hc
      match h : splitOnChar sep t with
      | [] => exact absurd h (splitOnChar_ne_nil sep t)
      | x :: xs =>
        rw [h] at ih
        simp [joinWithChar, ← ih, hc]
    · match h : splitOnChar sep t with
      | [] => exact absurd h (splitOnChar_ne_nil sep t)
      | x :: xs =>
        rw [h] at ih
        cases xs with
        | nil => simp_all [joinWithChar]
        | cons y ys => simp_all [joinWithChar]


theorem containsSub_of_occursAt (n : List Char) :
    ∀ (c : List Char) (i : Nat), occursAt n c i = true → containsSub n c = true := by
  intro c i
  induction i generalizing c with
  | zero =>
    intro h
    cases c with
    | nil => simpa [occursAt, containsSub] using h
    | cons x t => simp_all [occursAt, containsSub]
  | succ i ih =>
    intro h
    cases c with
    | nil => simpa [occursAt, containsSub] using h
    | cons x t =>
      have := ih t (by simpa [occursAt] using h)
      simp [containsSub, this]

theorem occursAt_of_containsSub (n : List Char) :
    ∀ (c : List Char), containsSub n c = true → ∃ i, occursAt n c i = true := by
  intro c
  induction c with
  | nil =>
    intro h
    exact ⟨0, by simpa [occursAt, containsSub] using h⟩
  | cons x t ih =>
    intro h
    rw [containsSub, Bool.or_eq_true] at h
    cases h with
    | inl h => exact ⟨0, by simpa [occursAt] using h⟩
    | inr h =>
      obtain ⟨i, hi⟩ := ih h
      exact ⟨i + 1, by simpa [occursAt] using hi⟩

theorem replaceFirst_first_occ (n r : List Char) :
    ∀ (i : Nat) (c : List Char), occursAt n c i = true →
      (∀ j, j < i → occursAt n c j = false) →
      replaceFirst n r c = c.take i ++ r ++ c.drop (i + n.length) := by
  intro i
  induction i with
  | zero =>
    intro c hocc _
    cases c with
    | nil =>
      simp only [occursAt, List.drop_nil] at hocc
      simp [replaceFirst, hocc]
    | cons x t =>
      simp only [occursAt, List.drop_zero] at hocc
      simp [replaceFirst, hocc]
  | succ i ih =>
    intro c hocc hmin
    cases c with
    | nil =>
      simp only [occursAt, List.drop_nil] at hocc
      have h0 := hmin 0 (Nat.succ_pos i)
      simp only [occursAt, List.drop_nil] at h0
      rw [h0] at hocc
      exact absurd hocc (by simp)
    | cons x t =>
      have h0 := hmin 0 (Nat.succ_pos i)
      simp only [occursAt, List.drop_zero] at h0
      have hocc' : occursAt n t i = true := by
        simpa [occursAt, List.drop_succ_cons] using hocc
      have hmin' : ∀ j, j < i → occursAt n t j = false := by
        intro j hj
        have := hmin (j + 1) (by omega)
        simpa [occursAt, List.drop_succ_cons] using this
      have := ih t hocc' hmin'
      simp only [replaceFirst, h0]
      rw [if_neg (by simp [h0]), this]
      simp only [List.take_succ_cons, List.cons_append]
      congr 2
      have : i + 1 + n.length = (i + n.length) + 1 := by omega
      rw [this, List.drop_succ_cons]

theorem keyParts_nil : Fixer.keyParts [] = [] := by decide

theorem tryLineBasedFix_accepted (lines : List (List Char)) (fx : Fixer.CodeFix)
    (h0 : fx.original_code ≠ []) (nl : List (List Char))
    (h : Fixer.tryLineBasedFix lines fx = some nl) :
    Fixer.specAnchorCondition fx lines := by
  unfold Fixer.tryLineBasedFix at h
  simp only [if_neg h0] at h
  split at h
  · exact absurd h (by simp)
  split at h
  · exact absurd h (by simp)
  split at h
  · exact absurd h (by simp)
  split at h
  · exact absurd h (by simp)
  split at h
  case isTrue hcond =>
    split at h
    case isTrue hfuzzy =>
      unfold Fixer.specAnchorCondition
      right
      omega
    case isFalse => exact absurd h (by simp)
  case isFalse hcond =>
    unfold Fixer.specAnchorCondition
    rw [Decidable.not_and_iff_or_not] at hcond
    rcases hcond with hc | hc
    · rw [Decidable.not_not] at hc
      right
      rw [hc, keyParts_nil]
      simp
    · rw [Decidable.not_not] at hc
      left
      exact hc

theorem applyOneFix_contains (c : List Char) (fx : Fixer.CodeFix)
    (h0 : fx.original_code ≠ []) (hc : containsSub fx.original_code c = true) :
    Fixer.applyOneFix c fx =
      (replaceFirst fx.original_code fx.fixed_code c, .fixed) := by
  simp only [Fixer.applyOneFix, joinWithChar_splitOnChar, if_neg h0, hc, if_true]

theorem applyOneFix_fallback (c : List Char) (fx : Fixer.CodeFix)
    (h0 : fx.original_code ≠ []) (hc : containsSub fx.original_code c = false) :
    Fixer.applyOneFix c fx =
      match Fixer.tryLineBasedFix (splitOnChar '\n' c) fx with
      | some nl => (joinWithChar '\n' nl, .fixed)
      | none => (c, .failedNotFound) := by
  simp only [Fixer.applyOneFix, joinWithChar_splitOnChar, if_neg h0, hc,
    Bool.false_eq_true, if_false]

/-- C4: For a fix carrying a non-empty `original_code`, patch application
proceeds in exactly three steps. (1) When `original_code` occurs in the file
content, exactly its first occurrence is replaced by `fixed_code` (an empty
`fixed_code` deletes the matched text) and the fix is `FIXED`. (2) Otherwise a
line-anchored replacement is attempted, and it is accepted only when the
anchor line's trimmed content equals the trimmed first line of `original_code`
or at least 50% of that line's whitespace-separated tokens of length ≥ 3 occur
in the anchor line. (3) Otherwise the fix fails with the not-found reason and
the file content is unchanged. -/
theorem c4_patch_application (c : List Char) (fx : Fixer.CodeFix)
    (h0 : fx.original_code ≠ []) :
    (∀ i, occursAt fx.original_code c i = true →
       (∀ j, j < i → occursAt fx.original_code c j = false) →
       Fixer.applyOneFix c fx =
         (c.take i ++ fx.fixed_code ++ c.drop (i + fx.original_code.length),
          .fixed))
    ∧ (containsSub fx.original_code c = false →
         ((Fixer.applyOneFix c fx).2 = .fixed →
            Fixer.specAnchorCondition fx (splitOnChar '\n' c))
         ∧ ((Fixer.applyOneFix c fx).2 ≠ .fixed →
              Fixer.applyOneFix c fx = (c, .failedNotFound))) := by
  constructor
  · intro i hocc hmin
    have hc : containsSub fx.original_code c = true :=
      containsSub_of_occursAt fx.original_code c i hocc
    rw [applyOneFix_contains c fx h0 hc,
      replaceFirst_first_occ fx.original_code fx.fixed_code i c hocc hmin]
  · intro hc
    have hfb := applyOneFix_fallback c fx h0 hc
    constructor
    · intro hfixed
      cases htl : Fixer.tryLineBasedFix (splitOnChar '\n' c) fx with
      | none => rw [hfb, htl] at hfixed; exact absurd hfixed (by simp)
      | some nl => exact tryLineBasedFix_accepted _ fx h0 nl htl
    · intro hnotfixed
      cases htl : Fixer.tryLineBasedFix (splitOnChar '\n' c) fx with
      | none => rw [hfb, htl]
      | some nl => rw [hfb, htl] at hnotfixed ⊢; exact absurd rfl hnotfixed

/-- Witness for C4 at the seed scenario S1: the missing-colon fix applies by
exact first-occurrence replacement. -/
theorem c4_patch_application_witness :
    Fixer.applyOneFix ("def f(x)\n    return x".data)
        ⟨"a.py".data, 1, "def f(x)".data, "def f(x):".data⟩ =
      (("def f(x):\n    return x".data), .fixed) := by
  have h := (c4_patch_application ("def f(x)\n    return x".data)
      ⟨"a.py".data, 1, "def f(x)".data, "def f(x):".data⟩ (by decide)).1 0
      (by decide) (fun j hj => absurd hj (Nat.not_lt_zero j))
  exact h.trans (by decide)

/-- C6 counterexample: the fix replacing `return a+b` by `return a*b` applies
successfully; re-applying it to the resulting content reports `FIXED` again
(through the fuzzy line-anchored fallback, since the token `return` still
occurs in the anchor line), not `NotFound` as the claim states. -/
theorem c6_idempotence_counterexample :
    Fixer.applyOneFix ("def f():\n    return a+b".data)
        ⟨"c.py".data, 2, "    return a+b".data, "    return a*b".data⟩ =
      (("def f():\n    return a*b".data), .fixed)
    ∧ Fixer.applyOneFix ("def f():\n    return a*b".data)
        ⟨"c.py".data, 2, "    return a+b".data, "    return a*b".data⟩ =
      (("def f():\n    return a*b".data), .fixed)
    ∧ (Fixer.ApplyResult.fixed ≠ Fixer.ApplyResult.failedNotFound) := by
  refine ⟨by decide, by decide, by decide⟩

/-- C6 amended: a second application of a fix is a no-op reporting `NotFound`
only when the once-fixed content no longer contains `original_code` and the
line-anchored fuzzy fallback also rejects; when the fallback's anchor gate
still accepts (as it does whenever the fixed line keeps ≥ 50% of the original
line's key tokens), the second application reports `FIXED` again. -/
theorem c6_idempotence_amended (c : List Char) (fx : Fixer.CodeFix)
    (h0 : fx.original_code ≠ [])
    (hc : containsSub fx.original_code c = false)
    (ht : Fixer.tryLineBasedFix (splitOnChar '\n' c) fx = none) :
    Fixer.applyOneFix c fx = (c, .failedNotFound) := by
  rw [applyOneFix_fallback c fx h0 hc, ht]

/-- Witness for the amended C6: after replacing `x+1` by `zzz`, re-application
finds neither an exact nor a fuzzy match and reports `NotFound`, leaving the
content unchanged. -/
theorem c6_idempotence_amended_witness :
    Fixer.applyOneFix ("zzz\ny".data) ⟨"c.py".data, 1, "x+1".data, "zzz".data⟩ =
      (("zzz\ny".data), .failedNotFound) :=
  c6_idempotence_amended ("zzz\ny".data) ⟨"c.py".data, 1, "x+1".data, "zzz".data⟩
    (by decide) (by decide) (by decide)

theorem applyOneFix_snd_ne_fileNotFound (c : List Char) (fx : Fixer.CodeFix) :
    (Fixer.applyOneFix c fx).2 ≠ .failedFileNotFound := by
  simp only [Fixer.applyOneFix]
  split
  · simp
  · split
    · simp
    · split <;> simp

theorem find?_filter_ne (rp rq : List (List Char)) (h : rq ≠ rp)
    (fs : Fixer.FileSys) :
    List.find? (fun e => decide (e.1 = rq))
        (List.filter (fun e => decide (¬ e.1 = rp)) fs) =
      List.find? (fun e => decide (e.1 = rq)) fs := by
  induction fs with
  | nil => simp
  | cons e t ih =>
    by_cases he : e.1 = rp
    · rw [List.filter_cons_of_neg (by simp [he]), ih,
        List.find?_cons_of_neg _ (by simp [he]; exact fun hx => h hx.symm)]
    · rw [List.filter_cons_of_pos (by simp [he])]
      by_cases hq : e.1 = rq
      · rw [List.find?_cons_of_pos _ (by simp [hq]),
          List.find?_cons_of_pos _ (by simp [hq])]
      · rw [List.find?_cons_of_neg _ (by simp [hq]),
          List.find?_cons_of_neg _ (by simp [hq]), ih]

theorem fsRead_write_ne (fs : Fixer.FileSys) (p c q : List Char)
    (h : Fixer.resolvePath q ≠ Fixer.resolvePath p) :
    Fixer.fsRead (Fixer.fsWrite fs p c) q = Fixer.fsRead fs q := by
  unfold Fixer.fsRead Fixer.fsWrite
  rw [List.find?_cons_of_neg _ (by simp; intro he; exact h he.symm),
    find?_filter_ne (Fixer.resolvePath p) (Fixer.resolvePath q) h fs]

/-- C5 counterexample: a fix targeting `../../etc/target.py` resolves outside
the workspace root `/work/repo`, yet fix application does not reject it: the
file outside the root is read, patched, reported `FIXED`, and written back. -/
theorem c5_traversal_counterexample :
    Fixer.isUnderRoot ("/work/repo".data)
        (Fixer.pyPathJoin ("/work/repo".data) ("../../etc/target.py".data)) = false
    ∧ (Fixer.applyFixToRepo
          [([("etc".data), ("target.py".data)], "x = a+b".data)]
          ("/work/repo".data)
          ⟨"../../etc/target.py".data, 1, "a+b".data, "a*b".data⟩).2 =
        .fixed
    ∧ Fixer.fsRead
        (Fixer.applyFixToRepo
          [([("etc".data), ("target.py".data)], "x = a+b".data)]
          ("/work/repo".data)
          ⟨"../../etc/target.py".data, 1, "a+b".data, "a*b".data⟩).1
        ("/etc/target.py".data) = some ("x = a*b".data) := by
  refine ⟨by decide, by decide, by decide⟩

/-- C5 amended: fix application performs no containment check against the
workspace root. A fix is rejected as `[File not found]` exactly when the
path joined from the root and the fix's `file_path` resolves to no existing
file — whether or not it escapes the root — and the only file it ever writes
is that joined target, again regardless of containment. -/
theorem c5_traversal_amended (fs : Fixer.FileSys) (root : List Char)
    (fx : Fixer.CodeFix) :
    ((Fixer.applyFixToRepo fs root fx).2 = .failedFileNotFound ↔
       Fixer.fsRead fs (Fixer.pyPathJoin root fx.file_path) = none)
    ∧ (∀ q, Fixer.resolvePath q ≠
          Fixer.resolvePath (Fixer.pyPathJoin root fx.file_path) →
        Fixer.fsRead (Fixer.applyFixToRepo fs root fx).1 q = Fixer.fsRead fs q) := by
  constructor
  · constructor
    · intro hst
      cases hr : Fixer.fsRead fs (Fixer.pyPathJoin root fx.file_path) with
      | none => rfl
      | some content =>
        simp only [Fixer.applyFixToRepo, hr] at hst
        exact absurd hst (applyOneFix_snd_ne_fileNotFound content fx)
    · intro hr
      simp [Fixer.applyFixToRepo, hr]
  · intro q hq
    cases hr : Fixer.fsRead fs (Fixer.pyPathJoin root fx.file_path) with
    | none => simp [Fixer.applyFixToRepo, hr]
    | some content =>
      simp only [Fixer.applyFixToRepo, hr]
      split
      · exact fsRead_write_ne fs (Fixer.pyPathJoin root fx.file_path) _ q hq
      · rfl

/-- Witness for the amended C5: applying the traversal fix leaves an unrelated
file of the store untouched. -/
theorem c5_traversal_amended_witness :
    Fixer.fsRead
        (Fixer.applyFixToRepo
          [([("etc".data), ("target.py".data)], "x = a+b".data)]
          ("/work/repo".data)
          ⟨"../../etc/target.py".data, 1, "a+b".data, "a*b".data⟩).1
        ("/work/repo/app.py".data) =
      Fixer.fsRead
        [([("etc".data), ("target.py".data)], "x = a+b".data)]
        ("/work/repo/app.py".data) :=
  (c5_traversal_amended
    [([("etc".data), ("target.py".data)], "x = a+b".data)]
    ("/work/repo".data)
    ⟨"../../etc/target.py".data, 1, "a+b".data, "a*b".data⟩).2
    ("/work/repo/app.py".data) (by decide)

/-- C3 counterexample: with tests passing, 100 seconds of wall time and no
commits, the score is 100 + 10 = 110, outside the claimed interval [0, 100]
(the source applies no upper clamp after the speed bonus); and a non-success
run whose partial-credit base reaches 100 in under 300 seconds gets no +10,
so the bonus is not granted whenever the base is 100. -/
theorem c3_score_counterexample :
    Orchestrator.calculate_score true 100 0 0 = 110
    ∧ ¬ Orchestrator.calculate_score true 100 0 0 ≤ 100
    ∧ Orchestrator.calculate_score false 100 0 4 = 100 := by
  refine ⟨by norm_num [Orchestrator.calculate_score, Orchestrator.BASE_SCORE,
      Orchestrator.SPEED_BONUS_THRESHOLD, Orchestrator.SPEED_BONUS,
      Orchestrator.COMMIT_PENALTY_THRESHOLD, Orchestrator.COMMIT_PENALTY], ?_, ?_⟩
  · norm_num [Orchestrator.calculate_score, Orchestrator.BASE_SCORE,
      Orchestrator.SPEED_BONUS_THRESHOLD, Orchestrator.SPEED_BONUS,
      Orchestrator.COMMIT_PENALTY_THRESHOLD, Orchestrator.COMMIT_PENALTY]
  · norm_num [Orchestrator.calculate_score, Orchestrator.BASE_SCORE,
      Orchestrator.SPEED_BONUS_THRESHOLD, Orchestrator.SPEED_BONUS,
      Orchestrator.COMMIT_PENALTY_THRESHOLD, Orchestrator.COMMIT_PENALTY]

/-- C3 amended: the base is 100 on success, else `min(100, 40 + 15·fixes)` when
at least one fix landed, else 0; the +10 speed bonus is granted exactly when
the run succeeded (tests pass) and wall time is under 300 s — not when a
partial-credit base reaches 100; −2 per commit over 20 applies; and the result
is clamped below at 0 only, so it lies in [0, 110] (at most 100 without
success), with 110 attained. -/
theorem c3_score_amended (success : Bool) (duration : ℚ)
    (commits fixes : Int) :
    0 ≤ Orchestrator.calculate_score success duration commits fixes
    ∧ Orchestrator.calculate_score success duration commits fixes ≤
        (if success then 110 else 100)
    ∧ Orchestrator.calculate_score true 100 0 0 = 110 := by
  refine ⟨?_, ?_, by norm_num [Orchestrator.calculate_score, Orchestrator.BASE_SCORE,
      Orchestrator.SPEED_BONUS_THRESHOLD, Orchestrator.SPEED_BONUS,
      Orchestrator.COMMIT_PENALTY_THRESHOLD, Orchestrator.COMMIT_PENALTY]⟩
  · unfold Orchestrator.calculate_score
    split_ifs <;> simp [Orchestrator.BASE_SCORE]
  · unfold Orchestrator.calculate_score Orchestrator.BASE_SCORE
      Orchestrator.SPEED_BONUS Orchestrator.COMMIT_PENALTY_THRESHOLD
      Orchestrator.COMMIT_PENALTY
    split_ifs <;> simp_all
    all_goals omega

theorem isPre_iff_prefix (a : List Char) : ∀ b, isPre a b = true ↔ a <+: b := by
  induction a with
  | nil => intro b; simp [isPre]
  | cons x xs ih =>
    intro b
    cases b with
    | nil => simp [isPre]
    | cons y ys =>
      simp only [isPre, Bool.and_eq_true, decide_eq_true_eq, ih ys,
        List.cons_prefix_cons]

theorem containsSub_iff_infixOf (n m : List Char) :
    containsSub n m = true ↔ n <:+: m := by
  induction m with
  | nil =>
    simp only [containsSub, isPre_iff_prefix, List.infix_nil, List.prefix_nil]
  | cons c t ih =>
    simp only [containsSub, Bool.or_eq_true, isPre_iff_prefix, ih,
      List.infix_cons_iff]

theorem containsSub_false_of_infix (n k m : List Char)
    (hm : containsSub n m = false) (hk : k <:+: m) : containsSub n k = false := by
  cases h : containsSub n k with
  | false => rfl
  | true =>
    exfalso
    have h1 : n <:+: m := ((containsSub_iff_infixOf n k).mp h).trans hk
    have h2 := (containsSub_iff_infixOf n m).mpr h1
    rw [h2] at hm
    exact absurd hm (by simp)

theorem isPre_underscore_of_prefix (a b : List Char) (h : b <+: a)
    (ha : isPre ['_'] a = false) : isPre ['_'] b = false := by
  cases b with
  | nil => rfl
  | cons c t =>
    obtain ⟨r, hr⟩ := h
    subst hr
    simpa [isPre] using ha

theorem collapseAux_head_true (l : List Char) :
    Branch.collapseAux true l = [] ∨
      ∃ c t, Branch.collapseAux true l = c :: t ∧ c ≠ '_' := by
  induction l with
  | nil => left; rfl
  | cons c t ih =>
    by_cases hc : c = '_'
    · simpa [Branch.collapseAux, hc] using ih
    · right; exact ⟨c, Branch.collapseAux false t, by simp [Branch.collapseAux, hc], hc⟩

theorem collapseAux_no_double (l : List Char) :
    ∀ b, containsSub ['_', '_'] (Branch.collapseAux b l) = false := by
  induction l with
  | nil => intro b; rfl
  | cons c t ih =>
    intro b
    by_cases hc : c = '_'
    · cases b with
      | true => simpa [Branch.collapseAux, hc] using ih true
      | false =>
        have hr : Branch.collapseAux false (c :: t) =
            '_' :: Branch.collapseAux true t := by
          simp [Branch.collapseAux, hc]
        rw [hr]
        simp only [containsSub, Bool.or_eq_false_iff]
        refine ⟨?_, ih true⟩
        rcases collapseAux_head_true t with h | ⟨c', t', h, hc'⟩
        · simp [h, isPre]
        · simp [h, isPre, Ne.symm hc']
    · cases b with
      | true =>
        simp only [Branch.collapseAux, if_neg hc]
        simp only [containsSub, Bool.or_eq_false_iff]
        exact ⟨by simp [isPre, Ne.symm hc], ih false⟩
      | false =>
        simp only [Branch.collapseAux, if_neg hc]
        simp only [containsSub, Bool.or_eq_false_iff]
        exact ⟨by simp [isPre, Ne.symm hc], ih false⟩

theorem collapseAux_mem (l : List Char) :
    ∀ b c, c ∈ Branch.collapseAux b l → c ∈ l := by
  induction l with
  | nil => intro b c h; exact absurd h (by simp [Branch.collapseAux])
  | cons x t ih =>
    intro b c h
    by_cases hx : x = '_'
    · cases b with
      | true =>
        rw [Branch.collapseAux, if_pos hx, if_pos rfl] at h
        exact List.mem_cons_of_mem x (ih true c h)
      | false =>
        rw [Branch.collapseAux, if_pos hx, if_neg (by simp)] at h
        rcases List.mem_cons.mp h with h | h
        · subst h; simp [hx]
        · exact List.mem_cons_of_mem x (ih true c h)
    · rw [Branch.collapseAux, if_neg hx] at h
      rcases List.mem_cons.mp h with h | h
      · subst h; simp
      · exact List.mem_cons_of_mem x (ih false c h)

theorem dropWhile_underscore_head (m : List Char) :
    isPre ['_'] (m.dropWhile (fun c => c = '_')) = false := by
  induction m with
  | nil => rfl
  | cons c t ih =>
    by_cases hc : c = '_'
    · simpa [List.dropWhile, hc] using ih
    · simp [List.dropWhile, hc, isPre, Ne.symm hc]

theorem stripUnderscores_prefixOf (l : List Char) :
    Branch.stripUnderscores l <+: l.dropWhile (fun c => c = '_') := by
  rw [Branch.stripUnderscores]
  obtain ⟨s, hs⟩ :=
    List.dropWhile_suffix (l := (l.dropWhile (fun c => c = '_')).reverse)
      (p := fun c => c = '_')
  exact ⟨s.reverse, by rw [← List.reverse_append, hs, List.reverse_reverse]⟩

/-- C7 counterexample: for team `Acme` and leader `Jane` the source produces
`ACME_JANE_AI_Fix` — the leader part is uppercased along with the team — not
the claimed case-preserving `ACME_Jane_AI_Fix`. -/
theorem c7_branch_counterexample :
    Branch.generate_branch_name ("Acme".data) ("Jane".data) =
      ("ACME_JANE_AI_Fix".data)
    ∧ Branch.generate_branch_name ("Acme".data) ("Jane".data) ≠
      ("ACME_Jane_AI_Fix".data) := by
  refine ⟨by decide, by decide⟩

/-- C7 amended: the branch name is `upper(strip_nonword(team + "_" + leader))
+ "_AI_Fix"` — the whole name, leader included, is uppercased before the
non-`[A-Z0-9_]` strip — and in the name part before the `_AI_Fix` suffix
repeated underscores are collapsed, no leading or trailing underscore remains,
and every character is in `[A-Z0-9_]`. -/
theorem c7_branch_amended (team leader : List Char) :
    ∃ name,
      Branch.generate_branch_name team leader = name ++ ("_AI_Fix".data)
      ∧ containsSub ['_', '_'] name = false
      ∧ isPre ['_'] name = false
      ∧ isPre ['_'] name.reverse = false
      ∧ name.all Branch.branchChar = true := by
  refine ⟨Branch.stripUnderscores (Branch.collapseUnderscores
    (((pyUpper (team ++ '_' :: leader)).map
        (fun c => if c = ' ' then '_' else c)).filter Branch.branchChar)),
    rfl, ?_, ?_, ?_, ?_⟩
  all_goals
    set cleaned := ((pyUpper (team ++ '_' :: leader)).map
        (fun c => if c = ' ' then '_' else c)).filter Branch.branchChar with hcleaned
    set C := Branch.collapseUnderscores cleaned with hC
  case _ =>
    have hinf : Branch.stripUnderscores C <:+: C :=
      (stripUnderscores_prefixOf C).isInfix.trans (List.dropWhile_suffix _).isInfix
    exact containsSub_false_of_infix _ _ C
      (collapseAux_no_double cleaned false) hinf
  case _ =>
    exact isPre_underscore_of_prefix _ _ (stripUnderscores_prefixOf C)
      (dropWhile_underscore_head C)
  case _ =>
    rw [Branch.stripUnderscores, List.reverse_reverse]
    exact dropWhile_underscore_head _
  case _ =>
    rw [List.all_eq_true]
    intro c hc
    have hmemA : c ∈ C.dropWhile (fun c => c = '_') :=
      (stripUnderscores_prefixOf C).sublist.subset hc
    have hmemC : c ∈ C := (List.dropWhile_sublist _).subset hmemA
    have hmemCl : c ∈ cleaned := collapseAux_mem cleaned false c hmemC
    exact (List.mem_filter.mp hmemCl).2

theorem loopCount_le (breakAt : Nat → Bool) (maxI : Nat) :
    ∀ k i, maxI - i ≤ k → i ≤ maxI → Loop.loopCount breakAt maxI i ≤ maxI := by
  intro k
  induction k with
  | zero =>
    intro i hk hi
    unfold Loop.loopCount
    rw [if_neg (by omega)]
    exact hi
  | succ k ih =>
    intro i hk hi
    unfold Loop.loopCount
    split
    · split
      · omega
      · exact ih (i + 1) (by omega) (by omega)
    · exact hi

theorem tailLoopCount_le (proceed breakAt : Nat → Bool) :
    ∀ k i, Loop.MAX_FINAL_ITERATIONS - i ≤ k → i ≤ Loop.MAX_FINAL_ITERATIONS →
      Loop.tailLoopCount proceed breakAt i ≤ Loop.MAX_FINAL_ITERATIONS := by
  intro k
  induction k with
  | zero =>
    intro i hk hi
    unfold Loop.tailLoopCount
    rw [if_neg (by rw [not_and_or]; left; omega)]
    exact hi
  | succ k ih =>
    intro i hk hi
    unfold Loop.tailLoopCount
    split
    · split
      · rename_i hcond _
        omega
      · exact ih (i + 1) (by omega) (by omega)
    · exact hi

/-- C8: the main fix/verify loop executes at most `MAX_ITERATIONS = 5`
iterations and the test-only remediation tail at most 3 more, for any
behaviour of the sandbox, fixer and test oracles (abstracted as the break /
continue decisions of each pass), so a run records at most 5 + 3 = 8
iterations in total. -/
theorem c8_iteration_bound (mainBreakAt tailProceed tailBreakAt : Nat → Bool) :
    Loop.mainLoopIterations mainBreakAt ≤ 5
    ∧ Loop.tailIterations tailProceed tailBreakAt ≤ 3
    ∧ Loop.mainLoopIterations mainBreakAt +
        Loop.tailIterations tailProceed tailBreakAt ≤ 8 := by
  have h1 : Loop.mainLoopIterations mainBreakAt ≤ 5 := by
    have := loopCount_le mainBreakAt Loop.MAX_ITERATIONS 5 0 (by decide) (by decide)
    simpa [Loop.mainLoopIterations, Loop.MAX_ITERATIONS] using this
  have h2 : Loop.tailIterations tailProceed tailBreakAt ≤ 3 := by
    have := tailLoopCount_le tailProceed tailBreakAt 3 0 (by decide) (by decide)
    simpa [Loop.tailIterations, Loop.MAX_FINAL_ITERATIONS] using this
  exact ⟨h1, h2, by omega⟩

theorem classifyFrom_first (t : List Char) :
    ∀ (table : List (String × Backend.BugType)) (i : Nat), i < table.length →
      Backend.rowMatches (table.getD i ("", .UNKNOWN)) t = true →
      (∀ j, j < i → Backend.rowMatches (table.getD j ("", .UNKNOWN)) t = false) →
      Backend.classifyFrom table t = (table.getD i ("", .UNKNOWN)).2 := by
  intro table
  induction table with
  | nil =>
    intro i hi
    exact absurd hi (by simp)
  | cons row rest ih =>
    intro i hi hm hb
    cases i with
    | zero =>
      simp only [List.getD_cons_zero] at hm ⊢
      simp [Backend.classifyFrom, hm]
    | succ i =>
      have h0 := hb 0 (Nat.succ_pos i)
      simp only [List.getD_cons_zero] at h0
      simp only [List.getD_cons_succ] at hm ⊢
      rw [Backend.classifyFrom, if_neg (by simp [h0])]
      exact ih i (by simpa using hi) hm
        (fun j hj => by simpa using hb (j + 1) (by omega))

theorem classifyFrom_default (t : List Char) :
    ∀ (table : List (String × Backend.BugType)),
      (∀ j, j < table.length →
        Backend.rowMatches (table.getD j ("", .UNKNOWN)) t = false) →
      Backend.classifyFrom table t = .UNKNOWN := by
  intro table
  induction table with
  | nil => intro _; rfl
  | cons row rest ih =>
    intro hb
    have h0 := hb 0 (by simp)
    simp only [List.getD_cons_zero] at h0
    rw [Backend.classifyFrom, if_neg (by simp [h0])]
    exact ih (fun j hj => by simpa using hb (j + 1) (by simpa using hj))

/-- C1 counterexample: raw text `TypeError` is classified `LOGIC` by
`ErrorParser.classify_error`, not `TYPE_ERROR` as the claim's table demands;
`AssertionError` is likewise `LOGIC` (not `TEST_FAILURE`), and `RuntimeError`
matches no row of the source table and falls through to `UNKNOWN`
(not `RUNTIME` — the backend enum has no `RUNTIME` member at all). -/
theorem c1_classify_counterexample :
    Backend.classifyError ("TypeError".data) ≠ Backend.BugType.TYPE_ERROR
    ∧ Backend.classifyError ("TypeError".data) = Backend.BugType.LOGIC
    ∧ Backend.classifyError ("AssertionError".data) = Backend.BugType.LOGIC
    ∧ Backend.classifyError ("RuntimeError".data) = Backend.BugType.UNKNOWN := by
  refine ⟨by decide, by decide, by decide, by decide⟩

/-- C1 amended: `classify_error` is a case-insensitive substring lookup in the
source's own `ERROR_CLASSIFICATION` table, with the earlier row winning on
ties and `UNKNOWN` (not `LINTING`) as the default; under that table,
`TypeError`, `AttributeError` and `AssertionError` map to `LOGIC`,
`Incompatible types` to `TYPE_ERROR`, and `RuntimeError`, `PermissionError`,
`RecursionError` and `FileNotFoundError` match no row and map to `UNKNOWN`,
as does any text matching no row. -/
theorem c1_classify_amended :
    (∀ t i, i < Backend.ERROR_CLASSIFICATION.length →
       Backend.rowMatches (Backend.ERROR_CLASSIFICATION.getD i ("", .UNKNOWN)) t
           = true →
       (∀ j, j < i →
         Backend.rowMatches (Backend.ERROR_CLASSIFICATION.getD j ("", .UNKNOWN)) t
           = false) →
       Backend.classifyError t =
         (Backend.ERROR_CLASSIFICATION.getD i ("", .UNKNOWN)).2)
    ∧ (∀ t, (∀ j, j < Backend.ERROR_CLASSIFICATION.length →
         Backend.rowMatches (Backend.ERROR_CLASSIFICATION.getD j ("", .UNKNOWN)) t
           = false) →
       Backend.classifyError t = .UNKNOWN)
    ∧ Backend.classifyError ("TypeError".data) = .LOGIC
    ∧ Backend.classifyError ("AttributeError".data) = .LOGIC
    ∧ Backend.classifyError ("AssertionError".data) = .LOGIC
    ∧ Backend.classifyError ("Incompatible types".data) = .TYPE_ERROR
    ∧ Backend.classifyError ("RuntimeError".data) = .UNKNOWN
    ∧ Backend.classifyError ("PermissionError".data) = .UNKNOWN
    ∧ Backend.classifyError ("RecursionError".data) = .UNKNOWN
    ∧ Backend.classifyError ("FileNotFoundError".data) = .UNKNOWN := by
  refine ⟨?_, ?_, by decide, by decide, by decide, by decide, by decide,
    by decide, by decide, by decide⟩
  · intro t i hi hm hb
    exact classifyFrom_first t Backend.ERROR_CLASSIFICATION i hi hm hb
  · intro t hb
    exact classifyFrom_default t Backend.ERROR_CLASSIFICATION hb

/-- Witness for the amended C1: `ValueError` matches row 12 of the table and
no earlier row, so the classifier returns that row's bug type, `LOGIC`. -/
theorem c1_classify_amended_witness :
    Backend.classifyError ("ValueError".data) = Backend.BugType.LOGIC := by
  have h := c1_classify_amended.1 ("ValueError".data) 12 (by decide) (by decide)
    (by decide)
  exact h.trans (by decide)

theorem lookup_mem_values {α β : Type} [BEq α] :
    ∀ (l : List (α × β)) (s : α) (b : β), l.lookup s = some b →
      b ∈ l.map Prod.snd := by
  intro l
  induction l with
  | nil => intro s b h; exact absurd h (by simp [List.lookup])
  | cons e t ih =>
    intro s b h
    rw [List.lookup] at h
    cases hk : s == e.1 with
    | true => rw [hk] at h; simp at h; simp [h]
    | false =>
      rw [hk] at h
      simp only [List.map_cons, List.mem_cons]
      exact Or.inr (ih s b h)

theorem classifyFrom_mem_or_unknown (t : List Char) :
    ∀ (table : List (String × Backend.BugType)),
      Backend.classifyFrom table t = .UNKNOWN ∨
        Backend.classifyFrom table t ∈ table.map Prod.snd := by
  intro table
  induction table with
  | nil => left; rfl
  | cons row rest ih =>
    rw [Backend.classifyFrom]
    split
    · right; simp
    · rcases ih with h | h
      · left; exact h
      · right; simp [h]

/-- C2 counterexample: text matching no classification row — `gcc exploded`
here — is classified `UNKNOWN` by the backend parser, a value outside the
claimed closed eight-element enum (and not the claimed `LINTING`/`RUNTIME`
fallback); the backend-updated enum moreover contains `DOCKER_ERROR`, a ninth
member outside the eight. -/
theorem c2_enum_counterexample :
    Backend.classifyError ("gcc exploded".data) = Backend.BugType.UNKNOWN
    ∧ specEightNames.contains (Backend.bugTypeName Backend.BugType.UNKNOWN) = false
    ∧ specEightNames.contains (Updated.bugTypeName Updated.BugType.DOCKER_ERROR)
        = false := by
  refine ⟨by decide, by decide, by decide⟩

/-- C2 amended: the backend classifier is total into its own seven-member enum
— the six spec members it uses plus `UNKNOWN`, its fallback for unclassifiable
text; the backend-updated fixer's error-type mapping does land in the spec's
eight-member enum and falls back to `LINTING` on unknown keys, but the
backend-updated enum itself carries the extra member `DOCKER_ERROR`. -/
theorem c2_enum_amended :
    (∀ s, specEightNames.contains
        (Updated.bugTypeName (Updated.mapErrorToBugType s)) = true)
    ∧ (∀ s, Updated.ERROR_MAPPING.lookup s = none →
        Updated.mapErrorToBugType s = .LINTING)
    ∧ (∀ t, Backend.classifyError t = .UNKNOWN ∨
        specEightNames.contains (Backend.bugTypeName (Backend.classifyError t))
          = true) := by
  have hallU : ∀ x ∈ Updated.ERROR_MAPPING.map Prod.snd,
      specEightNames.contains (Updated.bugTypeName x) = true := by decide
  have hallB : ∀ x ∈ Backend.ERROR_CLASSIFICATION.map Prod.snd,
      specEightNames.contains (Backend.bugTypeName x) = true := by decide
  refine ⟨?_, ?_, ?_⟩
  · intro s
    unfold Updated.mapErrorToBugType
    cases h : Updated.ERROR_MAPPING.lookup s with
    | none => decide
    | some b =>
      simp only [Option.getD_some]
      exact hallU b (lookup_mem_values Updated.ERROR_MAPPING s b h)
  · intro s h
    unfold Updated.mapErrorToBugType
    rw [h]
    rfl
  · intro t
    rcases classifyFrom_mem_or_unknown t Backend.ERROR_CLASSIFICATION with h | h
    · left; exact h
    · right; exact hallB _ h

/-- Witness for the amended C2: an error kind absent from the fixer's mapping
falls back to `LINTING`. -/
theorem c2_enum_amended_witness :
    Updated.mapErrorToBugType "SomeUnmappedKind" = Updated.BugType.LINTING :=
  c2_enum_amended.2.1 "SomeUnmappedKind" (by decide)

theorem replaceFoundFrom_length (found : List Nat) :
    ∀ (lines : List (List Char)) (k : Nat),
      (Sandbox.replaceFoundFrom found k lines).length = lines.length := by
  intro lines
  induction lines with
  | nil => intro k; rfl
  | cons l t ih => intro k; simp [Sandbox.replaceFoundFrom, ih]

theorem replaceFoundFrom_getD (found : List Nat) :
    ∀ (lines : List (List Char)) (k i : Nat), i < lines.length →
      (Sandbox.replaceFoundFrom found k lines).getD i [] =
        (if found.contains (k + i) then Sandbox.sentinelOf (lines.getD i [])
         else lines.getD i []) := by
  intro lines
  induction lines with
  | nil => intro k i hi; exact absurd hi (by simp)
  | cons l t ih =>
    intro k i hi
    cases i with
    | zero => simp [Sandbox.replaceFoundFrom]
    | succ i =>
      have := ih (k + 1) i (by simpa using hi)
      simp only [Sandbox.replaceFoundFrom, List.getD_cons_succ]
      rw [this]
      have harith : k + 1 + i = k + (i + 1) := by omega
      rw [harith]

theorem sentinelOf_indent (l : List Char) :
    ((Sandbox.sentinelOf l).takeWhile pyWsp).length =
      (l.takeWhile pyWsp).length := by
  unfold Sandbox.sentinelOf
  have key : ∀ n, (List.replicate n ' ' ++
      ("pass  # [SYNTAX_CHECK_PLACEHOLDER]\n".data)).takeWhile pyWsp =
      List.replicate n ' ' := by
    intro n
    induction n with
    | zero => decide
    | succ n ih => simp [List.replicate_succ, List.takeWhile_cons, pyWsp, ih]
  rw [key]
  simp

theorem discoverRounds_rounds_le (parse : List (List Char) → Option Nat)
    (lines : List (List Char)) :
    ∀ (fuel : Nat) (found : List Nat) (rounds : Nat),
      (Sandbox.discoverRounds parse lines fuel found rounds).2 ≤ rounds + fuel := by
  intro fuel
  induction fuel with
  | zero => intro found rounds; simp [Sandbox.discoverRounds]
  | succ fuel ih =>
    intro found rounds
    rw [Sandbox.discoverRounds]
    cases hp : parse (Sandbox.replaceFound found lines) with
    | none => simp
    | some l =>
      dsimp only
      by_cases hc : l ≠ 0 ∧ l ∉ found
      · rw [if_pos hc]
        have := ih (found ++ [l]) (rounds + 1)
        omega
      · rw [if_neg hc]
        simp

theorem discoverRounds_nodup (parse : List (List Char) → Option Nat)
    (lines : List (List Char)) :
    ∀ (fuel : Nat) (found : List Nat) (rounds : Nat), found.Nodup →
      (Sandbox.discoverRounds parse lines fuel found rounds).1.Nodup := by
  intro fuel
  induction fuel with
  | zero => intro found rounds h; simpa [Sandbox.discoverRounds] using h
  | succ fuel ih =>
    intro found rounds h
    rw [Sandbox.discoverRounds]
    cases hp : parse (Sandbox.replaceFound found lines) with
    | none => simpa using h
    | some l =>
      dsimp only
      by_cases hc : l ≠ 0 ∧ l ∉ found
      · rw [if_pos hc]
        refine ih (found ++ [l]) (rounds + 1) ?_
        simp [List.nodup_append, h, hc.2]
      · rw [if_neg hc]
        simpa using h

/-- C9: for any behaviour of the Python parser (abstracted as an oracle from
file lines to the first syntax-error line), multi-error discovery performs at
most 10 re-parse rounds; each round replaces exactly the already-found error
lines with the indentation-preserving `pass` sentinel (same leading-whitespace
width); each error line number is reported at most once; and a file that
parses cleanly yields the empty list. -/
theorem c9_syntax_discovery (parse : List (List Char) → Option Nat)
    (lines : List (List Char)) :
    (parse lines = none → Sandbox.findAllSyntaxErrors parse lines = ([], 0))
    ∧ (Sandbox.findAllSyntaxErrors parse lines).2 ≤ 10
    ∧ (Sandbox.findAllSyntaxErrors parse lines).1.Nodup
    ∧ (∀ found, (Sandbox.replaceFound found lines).length = lines.length)
    ∧ (∀ found i, i < lines.length →
        (Sandbox.replaceFound found lines).getD i [] =
          (if found.contains (i + 1) then Sandbox.sentinelOf (lines.getD i [])
           else lines.getD i []))
    ∧ (∀ l, ((Sandbox.sentinelOf l).takeWhile pyWsp).length =
        (l.takeWhile pyWsp).length) := by
  refine ⟨?_, ?_, ?_, ?_, ?_, sentinelOf_indent⟩
  · intro h
    unfold Sandbox.findAllSyntaxErrors
    rw [h]
  · unfold Sandbox.findAllSyntaxErrors
    cases hp : parse lines with
    | none => simp
    | some l =>
      dsimp only
      split
      · simp
      · simpa using discoverRounds_rounds_le parse lines 10 [l] 0
  · unfold Sandbox.findAllSyntaxErrors
    cases hp : parse lines with
    | none => simp
    | some l =>
      dsimp only
      split
      · simp
      · exact discoverRounds_nodup parse lines 10 [l] 0 (by simp)
  · intro found
    exact replaceFoundFrom_length found lines 1
  · intro found i hi
    have := replaceFoundFrom_getD found lines 1 i hi
    rw [Sandbox.replaceFound, this, Nat.add_comm 1 i]

/-- Witness for C9: a file the parser accepts yields no defects and zero
re-parse rounds. -/
theorem c9_syntax_discovery_witness :
    Sandbox.findAllSyntaxErrors (fun _ => none) [("x = 1".data)] = ([], 0) :=
  (c9_syntax_discovery (fun _ => none) [("x = 1".data)]).1 rfl

/-- C10 counterexample: at a concrete run-id, the persistence trace of
`_save_result_to_disk` is a two-operation direct write to the final path; it
cannot be decomposed as the claimed write-to-temporary followed by a rename
into place (the trace contains no rename at all). -/
theorem c10_store_counterexample :
    ¬ ∃ tmp : List Char,
        tmp ≠ Store.resultFilePath ("results_cache".data) ("run1".data) ∧
        Store.saveResultToDiskTrace ("results_cache".data) ("run1".data)
            ("doc".data) =
          Store.specAtomicSaveTrace tmp
            (Store.resultFilePath ("results_cache".data) ("run1".data))
            ("doc".data) := by
  rintro ⟨tmp, _, heq⟩
  have h2 : (Store.saveResultToDiskTrace ("results_cache".data) ("run1".data)
      ("doc".data)).length = 2 := rfl
  rw [heq] at h2
  exact absurd h2 (by simp [Store.specAtomicSaveTrace])

/-- C10 amended: each result is persisted as one JSON document per run-id at
`RESULTS_DIR/<run-id>.json` (distinct run-ids give distinct files), but the
document is written directly to its final path — open, write, close — with no
temporary file and no rename, so the write is not atomic. -/
theorem c10_store_amended (dir id doc : List Char) :
    Store.saveResultToDiskTrace dir id doc =
      [Store.FsOp.openWrite (Store.resultFilePath dir id),
       Store.FsOp.writeDoc (Store.resultFilePath dir id) doc]
    ∧ (∀ op ∈ Store.saveResultToDiskTrace dir id doc, op.isRename = false)
    ∧ (∀ id₂, Store.resultFilePath dir id = Store.resultFilePath dir id₂ →
        id = id₂) := by
  refine ⟨rfl, ?_, ?_⟩
  · intro op hop
    rcases List.mem_cons.mp hop with h | h
    · subst h; rfl
    · rcases List.mem_cons.mp h with h | h
      · subst h; rfl
      · exact absurd h (by simp)
  · intro id₂ h
    unfold Store.resultFilePath at h
    have h1 := List.append_cancel_left h
    have h3 : id ++ (".json".data) = id₂ ++ (".json".data) := by
      simpa using h1
    exact List.append_cancel_right h3

/-- Witness for the amended C10: the first operation of a concrete trace is a
plain open-for-write, not a rename. -/
theorem c10_store_amended_witness :
    (Store.FsOp.openWrite
        (Store.resultFilePath ("results_cache".data) ("run1".data))).isRename
      = false :=
  (c10_store_amended ("results_cache".data) ("run1".data) ("doc".data)).2.1
    (Store.FsOp.openWrite
      (Store.resultFilePath ("results_cache".data) ("run1".data)))
    (by simp [Store.saveResultToDiskTrace])
